import Mathlib

/-!
Shallow embedding of the `tacplus` TACACS+ library (packet codec, body
obfuscation, and the session sequence/flag logic), translated from the Go
source.  Go bytes (`byte`/`uint8`) are modelled as `Nat`; every place the Go
code performs a narrowing conversion (`byte(x)`, `uint8(x)`) the model takes
`% 256` explicitly.  Go byte slices and strings are both modelled as
`List Nat`.  Fallible operations return `Except`/`Option`.
-/

namespace Tacplus

/-- Errors a packet-body decoder can produce.  `bad` models the Go
`errBadPacket` ("bad secret or packet"); `oob` models an out-of-bounds slice
or index operation inside `readBuf` (a Go runtime panic), which the decoders
are supposed to make unreachable by checking length fields first. -/
inductive PErr where
  | oob
  | bad
deriving DecidableEq

/-- State-passing decoder over the remaining buffer bytes, modelling the Go
`readBuf` receiver that advances as fields are consumed. -/
def UM (α : Type) : Type := List Nat → Except PErr (α × List Nat)

/-- Monadic return for `UM`. -/
def umPure {α : Type} (a : α) : UM α := fun b => .ok (a, b)

/-- Monadic sequencing for `UM`: run the first decoder, feed the remaining
buffer to the second. -/
def umBind {α β : Type} (m : UM α) (f : α → UM β) : UM β := fun b =>
  match m b with
  | .error e => .error e
  | .ok (a, b2) => f a b2

instance : Monad UM where
  pure := umPure
  bind := umBind

/-- `readBuf.byte`: consume one byte; reading from an empty buffer is an
out-of-bounds access. -/
def umByte : UM Nat := fun b =>
  match b with
  | [] => .error .oob
  | c :: rest => .ok (c, rest)

/-- `readBuf.uint16`: consume two bytes as a big-endian 16-bit integer.
The Go code computes `int(b[0])<<8 | int(b[1])`, which for byte values
equals `b0 * 256 + b1`. -/
def umUint16 : UM Nat := fun b =>
  match b with
  | b0 :: b1 :: rest => .ok (b0 * 256 + b1, rest)
  | _ => .error .oob

/-- `readBuf.bytes` / `readBuf.slice` / `readBuf.string`: consume `n` bytes.
Reading past the end of the buffer is an out-of-bounds access. -/
def umBytes (n : Nat) : UM (List Nat) := fun b =>
  if n ≤ b.length then .ok (b.take n, b.drop n) else .error .oob

/-- A `if len(b) < n { return errBadPacket }` guard from the Go decoders:
fails with `bad` when fewer than `n` bytes remain, consumes nothing. -/
def umLenCheck (n : Nat) : UM Unit := fun b =>
  if b.length < n then .error .bad else .ok ((), b)

/-- The per-argument loop shared by `AuthorRequest`, `AuthorResponse` and
`AcctRequest` unmarshalling: for each recorded length `n`, check
`len(b) < int(n)` (returning `errBadPacket` on shortfall) and then consume
`n` bytes as the next argument string. -/
def umArgs : List Nat → UM (List (List Nat))
  | [] => umPure []
  | n :: ns =>
    umBind (umLenCheck n) (fun _ =>
    umBind (umBytes n) (fun s =>
    umBind (umArgs ns) (fun rest =>
    umPure (s :: rest))))

/-- Run a decoder on a whole buffer, discarding the unread remainder (the Go
unmarshal functions ignore trailing bytes). -/
def umRun {α : Type} (m : UM α) (buf : List Nat) : Except PErr α :=
  match m buf with
  | .error e => .error e
  | .ok (a, _) => .ok a

/-- `appendUint16`: append two 16-bit big-endian values, as in the Go
helper (`byte(i>>8), byte(i), byte(j>>8), byte(j)`). -/
def appendUint16 (b : List Nat) (i j : Nat) : List Nat :=
  b ++ [(i >>> 8) % 256, i % 256, (j >>> 8) % 256, j % 256]

/-- AuthenReply Status field values (from the Go constant block). -/
def AuthenStatusGetData : Nat := 0x3

/-- AuthenStatusGetUser constant. -/
def AuthenStatusGetUser : Nat := 0x4

/-- AuthenStatusGetPass constant. -/
def AuthenStatusGetPass : Nat := 0x5

/-- `authenReplyFlagNoEcho` constant. -/
def authenReplyFlagNoEcho : Nat := 0x1

/-- `authenContinueFlagAbort` constant. -/
def authenContinueFlagAbort : Nat := 0x1

/-- AuthenStart is a TACACS+ authentication start packet. -/
structure AuthenStart where
  Action : Nat
  PrivLvl : Nat
  AuthenType : Nat
  AuthenService : Nat
  User : List Nat
  Port : List Nat
  RemAddr : List Nat
  Data : List Nat
deriving DecidableEq

/-- `AuthenStart.marshal`: body bytes of a marshalled AuthenStart (the Go
function additionally reserves a 12-byte header prefix, which the model
omits since `unmarshal` is applied to the body only).  `none` models the
"field too large" errors. -/
def AuthenStart.marshal (a : AuthenStart) : Option (List Nat) :=
  if a.User.length > 255 then none
  else if a.Port.length > 255 then none
  else if a.RemAddr.length > 255 then none
  else if a.Data.length > 255 then none
  else some ([a.Action, a.PrivLvl, a.AuthenType, a.AuthenService,
              a.User.length % 256, a.Port.length % 256,
              a.RemAddr.length % 256, a.Data.length % 256]
             ++ a.User ++ a.Port ++ a.RemAddr ++ a.Data)

/-- `AuthenStart.unmarshal`, translated line by line from the Go decoder. -/
def AuthenStart.unmarshal (buf : List Nat) : Except PErr AuthenStart :=
  umRun (do
    umLenCheck 8
    let action ← umByte
    let privLvl ← umByte
    let authenType ← umByte
    let authenService ← umByte
    let ul ← umByte
    let pl ← umByte
    let rl ← umByte
    let dl ← umByte
    umLenCheck (ul + pl + rl + dl)
    let user ← umBytes ul
    let port ← umBytes pl
    let remAddr ← umBytes rl
    let data ← umBytes dl
    pure { Action := action, PrivLvl := privLvl, AuthenType := authenType,
           AuthenService := authenService, User := user, Port := port,
           RemAddr := remAddr, Data := data : AuthenStart }) buf

/-- AuthenReply is a TACACS+ authentication reply packet. -/
structure AuthenReply where
  Status : Nat
  NoEcho : Bool
  ServerMsg : List Nat
  Data : List Nat
deriving DecidableEq

/-- `AuthenReply.last`: whether the reply is the last packet of the
session (`a.Status < AuthenStatusGetData || a.Status > AuthenStatusGetPass`). -/
def AuthenReply.last (a : AuthenReply) : Bool :=
  decide (a.Status < AuthenStatusGetData) || decide (a.Status > AuthenStatusGetPass)

/-- `AuthenReply.flags`. -/
def AuthenReply.flags (a : AuthenReply) : Nat :=
  if a.NoEcho then authenReplyFlagNoEcho else 0

/-- `AuthenReply.marshal` body bytes. -/
def AuthenReply.marshal (a : AuthenReply) : Option (List Nat) :=
  if a.ServerMsg.length > 65535 then none
  else if a.Data.length > 65535 then none
  else some (appendUint16 [a.Status, a.flags] a.ServerMsg.length a.Data.length
             ++ a.ServerMsg ++ a.Data)

/-- `AuthenReply.unmarshal`. -/
def AuthenReply.unmarshal (buf : List Nat) : Except PErr AuthenReply :=
  umRun (do
    umLenCheck 6
    let status ← umByte
    let fl ← umByte
    let sl ← umUint16
    let dl ← umUint16
    umLenCheck (sl + dl)
    let serverMsg ← umBytes sl
    let data ← umBytes dl
    pure { Status := status, NoEcho := decide (fl &&& authenReplyFlagNoEcho > 0),
           ServerMsg := serverMsg, Data := data : AuthenReply }) buf

/-- authenContinue is a TACACS+ authentication continue packet (the variant
with separate `UserMsg` and `Data` fields). -/
structure authenContinue where
  Abort : Bool
  UserMsg : List Nat
  Data : List Nat
deriving DecidableEq

/-- `authenContinue.flags`. -/
def authenContinue.flags (a : authenContinue) : Nat :=
  if a.Abort then authenContinueFlagAbort else 0

/-- `authenContinue.marshal` body bytes. -/
def authenContinue.marshal (a : authenContinue) : Option (List Nat) :=
  if a.UserMsg.length > 65535 then none
  else if a.Data.length > 65535 then none
  else some (appendUint16 [] a.UserMsg.length a.Data.length
             ++ [a.flags] ++ a.UserMsg ++ a.Data)

/-- `authenContinue.unmarshal`. -/
def authenContinue.unmarshal (buf : List Nat) : Except PErr authenContinue :=
  umRun (do
    umLenCheck 5
    let ul ← umUint16
    let dl ← umUint16
    let fl ← umByte
    umLenCheck (ul + dl)
    let userMsg ← umBytes ul
    let data ← umBytes dl
    pure { Abort := decide (fl &&& authenContinueFlagAbort > 0),
           UserMsg := userMsg, Data := data : authenContinue }) buf

/-- AuthenContinue is the other source variant of the authentication
continue packet: a single `Message` field that travels in the data slot
when `Abort` is set and in the user-message slot otherwise. -/
structure AuthenContinue where
  Abort : Bool
  Message : List Nat
deriving DecidableEq

/-- `AuthenContinue.flags`. -/
def AuthenContinue.flags (a : AuthenContinue) : Nat :=
  if a.Abort then authenContinueFlagAbort else 0

/-- `AuthenContinue.marshal` body bytes. -/
def AuthenContinue.marshal (a : AuthenContinue) : Option (List Nat) :=
  if a.Message.length > 65535 then none
  else if a.Abort then
    some (appendUint16 [] 0 a.Message.length ++ [a.flags] ++ a.Message)
  else
    some (appendUint16 [] a.Message.length 0 ++ [a.flags] ++ a.Message)

/-- `AuthenContinue.unmarshal`. -/
def AuthenContinue.unmarshal (buf : List Nat) : Except PErr AuthenContinue :=
  umRun (do
    umLenCheck 5
    let ml ← umUint16
    let dl ← umUint16
    let fl ← umByte
    umLenCheck (ml + dl)
    let msg ← umBytes ml
    let data ← umBytes dl
    let abort := decide (fl &&& authenContinueFlagAbort > 0)
    pure { Abort := abort, Message := if abort then data else msg : AuthenContinue }) buf

/-- AuthorRequest is a TACACS+ authorization request packet. -/
structure AuthorRequest where
  AuthenMethod : Nat
  PrivLvl : Nat
  AuthenType : Nat
  AuthenService : Nat
  User : List Nat
  Port : List Nat
  RemAddr : List Nat
  Arg : List (List Nat)
deriving DecidableEq

/-- `AuthorRequest.marshal` body bytes. -/
def AuthorRequest.marshal (a : AuthorRequest) : Option (List Nat) :=
  if a.User.length > 255 then none
  else if a.Port.length > 255 then none
  else if a.RemAddr.length > 255 then none
  else if a.Arg.length > 255 then none
  else if a.Arg.any (fun s => s.length > 255) then none
  else some ([a.AuthenMethod, a.PrivLvl, a.AuthenType, a.AuthenService,
              a.User.length % 256, a.Port.length % 256,
              a.RemAddr.length % 256, a.Arg.length % 256]
             ++ a.Arg.map (fun s => s.length % 256)
             ++ a.User ++ a.Port ++ a.RemAddr
             ++ a.Arg.flatten)

/-- `AuthorRequest.unmarshal`. -/
def AuthorRequest.unmarshal (buf : List Nat) : Except PErr AuthorRequest :=
  umRun (do
    umLenCheck 8
    let authenMethod ← umByte
    let privLvl ← umByte
    let authenType ← umByte
    let authenService ← umByte
    let ul ← umByte
    let pl ← umByte
    let rl ← umByte
    let ac ← umByte
    umLenCheck (ul + pl + rl + ac)
    let al ← umBytes ac
    let user ← umBytes ul
    let port ← umBytes pl
    let remAddr ← umBytes rl
    let arg ← umArgs al
    pure { AuthenMethod := authenMethod, PrivLvl := privLvl,
           AuthenType := authenType, AuthenService := authenService,
           User := user, Port := port, RemAddr := remAddr,
           Arg := arg : AuthorRequest }) buf

/-- AuthorResponse is a TACACS+ authorization response packet. -/
structure AuthorResponse where
  Status : Nat
  Arg : List (List Nat)
  ServerMsg : List Nat
  Data : List Nat
deriving DecidableEq

/-- `AuthorResponse.marshal` body bytes. -/
def AuthorResponse.marshal (a : AuthorResponse) : Option (List Nat) :=
  if a.Arg.length > 255 then none
  else if a.ServerMsg.length > 65535 then none
  else if a.Data.length > 65535 then none
  else if a.Arg.any (fun s => s.length > 255) then none
  else some (appendUint16 [a.Status, a.Arg.length % 256]
               a.ServerMsg.length a.Data.length
             ++ a.Arg.map (fun s => s.length % 256)
             ++ a.ServerMsg ++ a.Data
             ++ a.Arg.flatten)

/-- `AuthorResponse.unmarshal`. -/
def AuthorResponse.unmarshal (buf : List Nat) : Except PErr AuthorResponse :=
  umRun (do
    umLenCheck 6
    let status ← umByte
    let ac ← umByte
    let sl ← umUint16
    let dl ← umUint16
    umLenCheck (ac + sl + dl)
    let al ← umBytes ac
    let serverMsg ← umBytes sl
    let data ← umBytes dl
    let arg ← umArgs al
    pure { Status := status, Arg := arg, ServerMsg := serverMsg,
           Data := data : AuthorResponse }) buf

/-- AcctRequest is a TACACS+ accounting request packet. -/
structure AcctRequest where
  Flags : Nat
  AuthenMethod : Nat
  PrivLvl : Nat
  AuthenType : Nat
  AuthenService : Nat
  User : List Nat
  Port : List Nat
  RemAddr : List Nat
  Arg : List (List Nat)
deriving DecidableEq

/-- `AcctRequest.marshal` body bytes. -/
def AcctRequest.marshal (a : AcctRequest) : Option (List Nat) :=
  if a.User.length > 255 then none
  else if a.Port.length > 255 then none
  else if a.RemAddr.length > 255 then none
  else if a.Arg.length > 255 then none
  else if a.Arg.any (fun s => s.length > 255) then none
  else some ([a.Flags, a.AuthenMethod, a.PrivLvl, a.AuthenType, a.AuthenService,
              a.User.length % 256, a.Port.length % 256,
              a.RemAddr.length % 256, a.Arg.length % 256]
             ++ a.Arg.map (fun s => s.length % 256)
             ++ a.User ++ a.Port ++ a.RemAddr
             ++ a.Arg.flatten)

/-- `AcctRequest.unmarshal`. -/
def AcctRequest.unmarshal (buf : List Nat) : Except PErr AcctRequest :=
  umRun (do
    umLenCheck 9
    let flags ← umByte
    let authenMethod ← umByte
    let privLvl ← umByte
    let authenType ← umByte
    let authenService ← umByte
    let ul ← umByte
    let pl ← umByte
    let rl ← umByte
    let ac ← umByte
    umLenCheck (ul + pl + rl + ac)
    let al ← umBytes ac
    let user ← umBytes ul
    let port ← umBytes pl
    let remAddr ← umBytes rl
    let arg ← umArgs al
    pure { Flags := flags, AuthenMethod := authenMethod, PrivLvl := privLvl,
           AuthenType := authenType, AuthenService := authenService,
           User := user, Port := port, RemAddr := remAddr,
           Arg := arg : AcctRequest }) buf

/-- AcctReply is a TACACS+ accounting reply packet. -/
structure AcctReply where
  Status : Nat
  ServerMsg : List Nat
  Data : List Nat
deriving DecidableEq

/-- `AcctReply.marshal` body bytes: the two big-endian u16 length fields
come first, then the status byte, then the two payloads. -/
def AcctReply.marshal (a : AcctReply) : Option (List Nat) :=
  if a.ServerMsg.length > 65535 then none
  else if a.Data.length > 65535 then none
  else some (appendUint16 [] a.ServerMsg.length a.Data.length
             ++ [a.Status] ++ a.ServerMsg ++ a.Data)

/-- `AcctReply.unmarshal`: reads the two u16 lengths, then the status byte,
then checks and reads the payloads. -/
def AcctReply.unmarshal (buf : List Nat) : Except PErr AcctReply :=
  umRun (do
    umLenCheck 5
    let sl ← umUint16
    let dl ← umUint16
    let status ← umByte
    umLenCheck (sl + dl)
    let serverMsg ← umBytes sl
    let data ← umBytes dl
    pure { Status := status, ServerMsg := serverMsg, Data := data : AcctReply }) buf

/-- nullPacket represents an empty packet. -/
structure nullPacket where
deriving DecidableEq

/-- `nullPacket.marshal`: empty body (the Go function returns only the
12-byte header placeholder). -/
def nullPacket.marshal (_ : nullPacket) : Option (List Nat) := some []

/-- `nullPacket.unmarshal` accepts anything. -/
def nullPacket.unmarshal (_ : List Nat) : Except PErr nullPacket := .ok {}

/-!
The body obfuscation (`crypt` in conn.go) XORs the packet body with an MD5
keystream.  The Go code uses the standard library `crypto/md5`; the MD5
implementation below follows RFC 1321 (the reference the library
implements) on byte lists, with 32-bit words as `Nat` reduced `% 2^32`.
-/

/-- Left-rotate a 32-bit word (value assumed `< 2^32`) by `n` bits. -/
def rotl32 (x n : Nat) : Nat :=
  ((x <<< n) % 4294967296) ||| (x >>> (32 - n))

/-- The MD5 sine-derived constant table `K[0..63]`. -/
def md5K : List Nat :=
  [0xd76aa478, 0xe8c7b756, 0x242070db, 0xc1bdceee,
   0xf57c0faf, 0x4787c62a, 0xa8304613, 0xfd469501,
   0x698098d8, 0x8b44f7af, 0xffff5bb1, 0x895cd7be,
   0x6b901122, 0xfd987193, 0xa679438e, 0x49b40821,
   0xf61e2562, 0xc040b340, 0x265e5a51, 0xe9b6c7aa,
   0xd62f105d, 0x02441453, 0xd8a1e681, 0xe7d3fbc8,
   0x21e1cde6, 0xc33707d6, 0xf4d50d87, 0x455a14ed,
   0xa9e3e905, 0xfcefa3f8, 0x676f02d9, 0x8d2a4c8a,
   0xfffa3942, 0x8771f681, 0x6d9d6122, 0xfde5380c,
   0xa4beea44, 0x4bdecfa9, 0xf6bb4b60, 0xbebfbc70,
   0x289b7ec6, 0xeaa127fa, 0xd4ef3085, 0x04881d05,
   0xd9d4d039, 0xe6db99e5, 0x1fa27cf8, 0xc4ac5665,
   0xf4292244, 0x432aff97, 0xab9423a7, 0xfc93a039,
   0x655b59c3, 0x8f0ccc92, 0xffeff47d, 0x85845dd1,
   0x6fa87e4f, 0xfe2ce6e0, 0xa3014314, 0x4e0811a1,
   0xf7537e82, 0xbd3af235, 0x2ad7d2bb, 0xeb86d391]

/-- The MD5 per-round left-rotation amounts `s[0..63]`. -/
def md5S : List Nat :=
  [7, 12, 17, 22, 7, 12, 17, 22, 7, 12, 17, 22, 7, 12, 17, 22,
   5, 9, 14, 20, 5, 9, 14, 20, 5, 9, 14, 20, 5, 9, 14, 20,
   4, 11, 16, 23, 4, 11, 16, 23, 4, 11, 16, 23, 4, 11, 16, 23,
   6, 10, 15, 21, 6, 10, 15, 21, 6, 10, 15, 21, 6, 10, 15, 21]

/-- One MD5 operation (step `i` of 64) on the running state, with `m` the
16-word message schedule of the current chunk. -/
def md5Step (m : Nat → Nat) (st : Nat × Nat × Nat × Nat) (i : Nat) :
    Nat × Nat × Nat × Nat :=
  let a := st.1
  let b := st.2.1
  let c := st.2.2.1
  let d := st.2.2.2
  let fg : Nat × Nat :=
    if i < 16 then ((b &&& c) ||| ((b ^^^ 4294967295) &&& d), i)
    else if i < 32 then ((d &&& b) ||| ((d ^^^ 4294967295) &&& c), (5 * i + 1) % 16)
    else if i < 48 then (b ^^^ c ^^^ d, (3 * i + 5) % 16)
    else (c ^^^ (b ||| (d ^^^ 4294967295)), (7 * i) % 16)
  let tmp := (a + fg.1 + md5K.getD i 0 + m fg.2) % 4294967296
  (d, (b + rotl32 tmp (md5S.getD i 0)) % 4294967296, b, c)

/-- Process one 64-byte chunk: build the little-endian word schedule, run
the 64 operations, and add the result into the incoming state. -/
def md5Chunk (st : Nat × Nat × Nat × Nat) (chunk : List Nat) :
    Nat × Nat × Nat × Nat :=
  let m : Nat → Nat := fun g =>
    chunk.getD (4 * g) 0 + chunk.getD (4 * g + 1) 0 * 256 +
      chunk.getD (4 * g + 2) 0 * 65536 + chunk.getD (4 * g + 3) 0 * 16777216
  let r := (List.range 64).foldl (md5Step m) st
  ((st.1 + r.1) % 4294967296, (st.2.1 + r.2.1) % 4294967296,
   (st.2.2.1 + r.2.2.1) % 4294967296, (st.2.2.2 + r.2.2.2) % 4294967296)

/-- Fold the chunk compression over a padded message, 64 bytes at a time
(structured as a byte-wise accumulator so the recursion is structural; the
padded message length is always a multiple of 64, so the accumulator is
empty when the input runs out). -/
def md5Blocks (st : Nat × Nat × Nat × Nat) (acc : List Nat) :
    List Nat → Nat × Nat × Nat × Nat
  | [] => st
  | b :: bs =>
    if (acc ++ [b]).length = 64 then md5Blocks (md5Chunk st (acc ++ [b])) [] bs
    else md5Blocks st (acc ++ [b]) bs

/-- Little-endian byte serialization of a 64-bit length value. -/
def le64 (v : Nat) : List Nat :=
  [v % 256, (v >>> 8) % 256, (v >>> 16) % 256, (v >>> 24) % 256,
   (v >>> 32) % 256, (v >>> 40) % 256, (v >>> 48) % 256, (v >>> 56) % 256]

/-- Little-endian byte serialization of a 32-bit state word. -/
def le32 (v : Nat) : List Nat :=
  [v % 256, (v >>> 8) % 256, (v >>> 16) % 256, (v >>> 24) % 256]

/-- MD5 padding: a `0x80` byte, zeros to 56 mod 64, then the message bit
length as a little-endian 64-bit value. -/
def md5Pad (msg : List Nat) : List Nat :=
  msg ++ 128 :: List.replicate ((119 - msg.length % 64) % 64) 0 ++
    le64 (msg.length * 8)

/-- MD5 of a byte list: 16 digest bytes. -/
def md5 (msg : List Nat) : List Nat :=
  let st := md5Blocks (0x67452301, 0xefcdab89, 0x98badcfe, 0x10325476) [] (md5Pad msg)
  le32 st.1 ++ le32 st.2.1 ++ le32 st.2.2.1 ++ le32 st.2.2.2

/-- Packet header length (`hdrLen`). -/
def hdrLen : Nat := 12

/-- `hdrFlagSingleConnect` (0x04): multiplex requests over a single
connection. -/
def hdrFlagSingleConnect : Nat := 0x04

/-- The keystream seed built by `crypt`: session id bytes `p[4:8]`, the
shared secret, then the version byte `p[0]` and sequence number `p[2]`. -/
def cryptSeed (p key : List Nat) : List Nat :=
  (p.drop 4).take 4 ++ key ++ [p.getD 0 0, p.getD 2 0]

/-- The `crypt` obfuscation loop over the packet body: for each step, the
next MD5 digest of `seed ++ previous-digest` is truncated to the remaining
body length and XORed into the body.  `n` bounds the number of steps (it is
instantiated with enough 16-byte blocks to cover the body, making the
recursion structural; the Go loop runs while body bytes remain). -/
def cryptBlocks (n : Nat) (seed prevSum body : List Nat) : List Nat :=
  match n with
  | 0 => body
  | n + 1 =>
    match body with
    | [] => []
    | b :: bs =>
      let sum := md5 (seed ++ prevSum)
      let sum2 := if (b :: bs).length < sum.length then sum.take (b :: bs).length else sum
      List.zipWith (fun x y => x ^^^ y) ((b :: bs).take sum2.length) sum2 ++
        cryptBlocks n seed sum2 ((b :: bs).drop sum2.length)

/-- `crypt` encrypts or decrypts the body of a TACACS+ packet: the 12
header bytes are kept, the body is XORed with the MD5 keystream. -/
def crypt (p key : List Nat) : List Nat :=
  p.take hdrLen ++
    cryptBlocks (((p.drop hdrLen).length + 15) / 16) (cryptSeed p key) [] (p.drop hdrLen)

/-- The first `n` 16-byte blocks of the MD5 digest chain
(`digest_i = MD5(seed ++ digest_{i-1})`).  A proof-side characterization of
the pad that `cryptBlocks` XORs into the body; it depends only on the seed,
never on the body. -/
def keystream (seed prev : List Nat) : Nat → List Nat
  | 0 => []
  | n + 1 => md5 (seed ++ prev) ++ keystream seed (md5 (seed ++ prev)) n

/-- Big-endian serialization of a 32-bit value
(`binary.BigEndian.PutUint32`). -/
def be32 (v : Nat) : List Nat :=
  [(v >>> 24) % 256, (v >>> 16) % 256, (v >>> 8) % 256, v % 256]

/-- `session.writePacket` (conn.go), as a pure function on the raw packet
buffer: increment the header sequence byte (`p[hdrSeqNo]++`, a `uint8`
increment, so `% 256`), record it as the `seq` field of the session, store the body
length into header bytes 8..11 big-endian, and obfuscate.  The Go function
can also fail on closed sessions or I/O, but has no sequence-number check;
the returned pair is (new `s.seq`, bytes handed to the writer). -/
def sessionWritePacket (key p : List Nat) : Nat × List Nat :=
  let newSeq := (p.getD 2 0 + 1) % 256
  let p1 := p.set 2 newSeq
  let bl := be32 ((p.length - hdrLen) % 4294967296)
  let p2 := (((p1.set 8 (bl.getD 0 0)).set 9 (bl.getD 1 0)).set 10 (bl.getD 2 0)).set 11 (bl.getD 3 0)
  (newSeq, crypt p2 key)

/-- Session read errors (conn.go error values). -/
inductive SErr where
  | invalidSeqNo
  | sessionNotFound
deriving DecidableEq

/-- The sequence/parity validation of `session.readPacket` on a dequeued
raw packet `p`, given the last-sent sequence number `seqSent` of the session
(`s.seq`, a `uint8`) and the incoming-packet parity of the connection
(`s.c.parity`).  On success the deobfuscated packet is returned. -/
def sessionReadPacket (seqSent parity : Nat) (key p : List Nat) :
    Except SErr (List Nat) :=
  let seq := p.getD 2 0
  if seq ≠ (seqSent + 1) % 256 then
    if seqSent = 0 then .error .sessionNotFound
    else .error .invalidSeqNo
  else if seq &&& 0x1 = parity then .error .invalidSeqNo
  else .ok (crypt p key)

/-- The header-flag handling of `ServerSession.writePacket` (server.go):
on the first reply of a session (sequence byte still 1), if `Mux` or
`LegacyMux` is configured the flags byte is masked with
`hdrFlagSingleConnect` (`p[hdrFlags] &= 0x04`); otherwise it is zeroed. -/
def serverWritePacketFlags (mux legacyMux : Bool) (p : List Nat) : List Nat :=
  if p.getD 2 0 = 1 then
    if mux || legacyMux then
      p.set 3 ((p.getD 3 0) &&& hdrFlagSingleConnect)
    else
      p.set 3 0
  else p

/-- `maxUint16` (the Go `int(^uint16(0))`). -/
def maxUint16 : Nat := 65535

/-- The `authenContinue` packet sent by `ClientAuthenSession.Abort`:
abort flag set, the (truncated) reason carried in the `Data` field. -/
def clientAbortPacket (reason : List Nat) : authenContinue :=
  let r := if reason.length > maxUint16 then reason.take maxUint16 else reason
  { Abort := true, UserMsg := [], Data := r }

/-- Observable outcome of one `ClientAuthenSession.Continue` call, up to
the point where it either fails or awaits the `AuthenReply` of the server:
the `authenContinue` packets written, whether the call closed the session
before awaiting a reply, and the error returned (if any). -/
structure ContinueStep where
  sent : List authenContinue
  closed : Bool
  err : Option String
deriving DecidableEq

/-- `ClientAuthenSession.Continue` (client.go): when the session has a
last-sent sequence number has reached `0xfe`, abort with an empty reason
(closing the session) and fail with "session aborted, too many packets";
otherwise send an `authenContinue` carrying `msg` and await the reply. -/
def clientContinue (seqSent : Nat) (msg : List Nat) : ContinueStep :=
  if 0xfe ≤ seqSent then
    { sent := [clientAbortPacket []], closed := true,
      err := some "session aborted, too many packets" }
  else
    { sent := [{ Abort := false, UserMsg := msg, Data := [] }],
      closed := false, err := none }

/-! Concrete sample values used to instantiate the universally quantified
theorems below. -/

/-- A sample AuthenStart (empty `User`, nonempty other fields). -/
def exAuthenStart : AuthenStart :=
  { Action := 1, PrivLvl := 1, AuthenType := 1, AuthenService := 1,
    User := [], Port := [116, 49], RemAddr := [49], Data := [0, 1] }

/-- A sample AuthenReply. -/
def exAuthenReply : AuthenReply :=
  { Status := 4, NoEcho := true, ServerMsg := [85, 58], Data := [] }

/-- A sample authenContinue. -/
def exAuthenContinue1 : authenContinue :=
  { Abort := false, UserMsg := [106, 111, 101], Data := [] }

/-- A sample AuthenContinue with the abort flag set (its `Message` travels
in the data field on the wire). -/
def exAuthenContinue2 : AuthenContinue :=
  { Abort := true, Message := [98, 121, 101] }

/-- A sample AuthorRequest with an empty argument in the `Arg` list. -/
def exAuthorRequest : AuthorRequest :=
  { AuthenMethod := 6, PrivLvl := 1, AuthenType := 1, AuthenService := 1,
    User := [102], Port := [], RemAddr := [49, 48], Arg := [[97, 61], []] }

/-- A sample AuthorResponse with an empty `Arg` list. -/
def exAuthorResponse : AuthorResponse :=
  { Status := 1, Arg := [], ServerMsg := [111, 107], Data := [] }

/-- A sample AcctRequest. -/
def exAcctRequest : AcctRequest :=
  { Flags := 2, AuthenMethod := 1, PrivLvl := 1, AuthenType := 3,
    AuthenService := 3, User := [102], Port := [112], RemAddr := [],
    Arg := [[99, 61, 100]] }

/-- A sample AcctReply. -/
def exAcctReply : AcctReply :=
  { Status := 1, ServerMsg := [108, 111, 103], Data := [97] }

/-- A sample raw packet: 12-byte header (version 0xc0, authen, seq 1,
no flags, session id 1, body length 2) plus a 2-byte body. -/
def exPacket : List Nat :=
  [192, 1, 1, 0, 0, 0, 0, 1, 0, 0, 0, 2, 55, 66]

/-- A sample obfuscation key. -/
def exKey : List Nat := [107, 101, 121]

/-- A header-only packet with sequence byte 1 and flags byte 0. -/
def exHeaderSeq1 : List Nat := [192, 1, 1, 0, 0, 0, 0, 2, 0, 0, 0, 0]

/-- A header-only packet with sequence byte 0xff (about to wrap). -/
def exHeaderSeqFF : List Nat := [192, 1, 255, 0, 0, 0, 0, 3, 0, 0, 0, 0]

/-- A header-only packet with sequence byte 5. -/
def exHeaderSeq5 : List Nat := [192, 1, 5, 0, 0, 0, 0, 4, 0, 0, 0, 0]

/-- A header-only packet with sequence byte 2. -/
def exHeaderSeq2 : List Nat := [192, 1, 2, 0, 0, 0, 0, 5, 0, 0, 0, 0]

/-- A header-only packet with sequence byte 3. -/
def exHeaderSeq3 : List Nat := [192, 1, 3, 0, 0, 0, 0, 6, 0, 0, 0, 0]

/-- A header-only packet with sequence byte 0 (a fresh session buffer). -/
def exHeaderSeq0 : List Nat := [192, 1, 0, 0, 0, 0, 0, 7, 0, 0, 0, 0]

/-! Decoder evaluation lemmas. -/

/-- Monadic bind on `UM` is `umBind`. -/
theorem bind_eq_umBind {α β : Type} (m : UM α) (f : α → UM β) :
    m >>= f = umBind m f := rfl

/-- Monadic pure on `UM` is `umPure`. -/
theorem pure_eq_umPure {α : Type} (a : α) : (pure a : UM α) = umPure a := rfl

/-- `umByte` consumes the head byte. -/
theorem umBind_byte {β : Type} (f : Nat → UM β) (c : Nat) (r : List Nat) :
    umBind umByte f (c :: r) = f c r := rfl

/-- `umUint16` consumes two bytes big-endian. -/
theorem umBind_uint16 {β : Type} (f : Nat → UM β) (b0 b1 : Nat) (r : List Nat) :
    umBind umUint16 f (b0 :: b1 :: r) = f (b0 * 256 + b1) r := rfl

/-- A satisfied length guard is a no-op. -/
theorem umBind_lenCheck {β : Type} (n : Nat) (f : Unit → UM β) (b : List Nat)
    (h : n ≤ b.length) : umBind (umLenCheck n) f b = f () b := by
  simp only [umBind, umLenCheck, if_neg (show ¬b.length < n by omega)]

/-- `umBytes l.length` consumes exactly the prefix `l`. -/
theorem umBind_bytes {β : Type} (f : List Nat → UM β) (l r : List Nat) :
    umBind (umBytes l.length) f (l ++ r) = f l r := by
  simp only [umBind, umBytes,
    if_pos (show l.length ≤ (l ++ r).length by simp),
    List.take_left, List.drop_left]

/-- `umBytes l.length` on exactly `l` consumes everything. -/
theorem umBind_bytes_all {β : Type} (f : List Nat → UM β) (l : List Nat) :
    umBind (umBytes l.length) f l = f l [] := by
  have h := umBind_bytes f l []
  rwa [List.append_nil] at h

/-- `umPure` evaluated. -/
theorem umPure_apply {α : Type} (a : α) (b : List Nat) : umPure a b = .ok (a, b) := rfl

/-- Big-endian 16-bit encode/decode inversion for values that fit. -/
theorem u16_roundtrip (n : Nat) (h : n ≤ 65535) :
    ((n >>> 8) % 256) * 256 + n % 256 = n := by
  have hs : n >>> 8 = n / 256 := by
    rw [Nat.shiftRight_eq_div_pow]
  omega

/-- The argument-loop decoder recovers the argument list from its encoded
lengths and concatenated payloads. -/
theorem umArgs_roundtrip (args : List (List Nat))
    (h : ∀ s ∈ args, s.length ≤ 255) :
    umArgs (args.map (fun s => s.length % 256)) args.flatten = .ok (args, []) := by
  induction args with
  | nil => rfl
  | cons s rest ih =>
    have hs : s.length % 256 = s.length :=
      Nat.mod_eq_of_lt (by have := h s (by simp); omega)
    have hrest := ih (fun t ht => h t (by simp [ht]))
    simp only [List.map_cons, List.flatten_cons, umArgs, hs]
    rw [umBind_lenCheck _ _ _ (by simp only [List.length_append]; omega)]
    rw [umBind_bytes]
    simp only [umBind, hrest, umPure]

/-- Round trip for AuthenStart: unmarshalling a marshalled value restores
it. -/
theorem authenStart_roundtrip (a : AuthenStart) (b : List Nat)
    (h : a.marshal = some b) : AuthenStart.unmarshal b = .ok a := by
  unfold AuthenStart.marshal at h
  split_ifs at h with h1 h2 h3 h4 <;> simp at h
  subst h
  have hu : a.User.length % 256 = a.User.length := Nat.mod_eq_of_lt (by omega)
  have hp : a.Port.length % 256 = a.Port.length := Nat.mod_eq_of_lt (by omega)
  have hr : a.RemAddr.length % 256 = a.RemAddr.length := Nat.mod_eq_of_lt (by omega)
  have hd : a.Data.length % 256 = a.Data.length := Nat.mod_eq_of_lt (by omega)
  unfold AuthenStart.unmarshal umRun
  simp only [bind_eq_umBind, pure_eq_umPure,
    List.cons_append, List.nil_append, List.append_assoc]
  rw [umBind_lenCheck _ _ _ (by simp only [List.length_cons]; omega)]
  simp only [umBind_byte]
  rw [hu, hp, hr, hd]
  rw [umBind_lenCheck _ _ _ (by simp only [List.length_append]; omega)]
  rw [umBind_bytes, umBind_bytes, umBind_bytes, umBind_bytes_all]
  rfl

/-- `umBytes 0` consumes nothing. -/
theorem umBind_bytes_zero {β : Type} (f : List Nat → UM β) (b : List Nat) :
    umBind (umBytes 0) f b = f [] b := by
  simp only [umBind, umBytes, if_pos (Nat.zero_le _), List.take_zero, List.drop_zero]

/-- `umBytes n` consumes the prefix `l` whenever `l.length = n`. -/
theorem umBind_bytes_of {β : Type} (n : Nat) (f : List Nat → UM β)
    (l r : List Nat) (hl : l.length = n) :
    umBind (umBytes n) f (l ++ r) = f l r := by
  subst hl
  exact umBind_bytes f l r

/-- The AuthenReply no-echo flag byte decodes back to the `NoEcho` bit. -/
theorem authenReply_flag_decide (a : AuthenReply) :
    decide (AuthenReply.flags a &&& authenReplyFlagNoEcho > 0) = a.NoEcho := by
  cases a with
  | mk st ne sm da => cases ne <;> simp [AuthenReply.flags, authenReplyFlagNoEcho]

/-- The authenContinue abort flag byte decodes back to the `Abort` bit. -/
theorem authenContinue_flag_decide (a : authenContinue) :
    decide (authenContinue.flags a &&& authenContinueFlagAbort > 0) = a.Abort := by
  cases a with
  | mk ab um da => cases ab <;> simp [authenContinue.flags, authenContinueFlagAbort]

/-- The AuthenContinue abort flag byte decodes back to the `Abort` bit. -/
theorem authenContinue2_flag_decide (a : AuthenContinue) :
    decide (AuthenContinue.flags a &&& authenContinueFlagAbort > 0) = a.Abort := by
  cases a with
  | mk ab m => cases ab <;> simp [AuthenContinue.flags, authenContinueFlagAbort]

/-- Round trip for AuthenReply. -/
theorem authenReply_roundtrip (a : AuthenReply) (b : List Nat)
    (h : a.marshal = some b) : AuthenReply.unmarshal b = .ok a := by
  unfold AuthenReply.marshal at h
  split_ifs at h with h1 h2 <;> simp at h
  subst h
  unfold AuthenReply.unmarshal umRun
  simp only [appendUint16, bind_eq_umBind, pure_eq_umPure,
    List.cons_append, List.nil_append, List.append_assoc]
  rw [umBind_lenCheck _ _ _ (by simp only [List.length_cons]; omega)]
  simp only [umBind_uint16, umBind_byte]
  rw [u16_roundtrip _ (by omega), u16_roundtrip _ (by omega)]
  rw [umBind_lenCheck _ _ _ (by simp only [List.length_append]; omega)]
  rw [umBind_bytes, umBind_bytes_all]
  simp only [umPure, authenReply_flag_decide]

/-- Round trip for authenContinue. -/
theorem authenContinue_roundtrip (a : authenContinue) (b : List Nat)
    (h : a.marshal = some b) : authenContinue.unmarshal b = .ok a := by
  unfold authenContinue.marshal at h
  split_ifs at h with h1 h2 <;> simp at h
  subst h
  unfold authenContinue.unmarshal umRun
  simp only [appendUint16, bind_eq_umBind, pure_eq_umPure,
    List.cons_append, List.nil_append, List.append_assoc]
  rw [umBind_lenCheck _ _ _ (by simp only [List.length_cons]; omega)]
  simp only [umBind_uint16, umBind_byte]
  rw [u16_roundtrip _ (by omega), u16_roundtrip _ (by omega)]
  rw [umBind_lenCheck _ _ _ (by simp only [List.length_append]; omega)]
  rw [umBind_bytes, umBind_bytes_all]
  simp only [umPure, authenContinue_flag_decide]

/-- Round trip for AuthenContinue: the single `Message` field travels in
the data slot when aborting, in the user-message slot otherwise, and is
restored either way. -/
theorem authenContinue2_roundtrip (a : AuthenContinue) (b : List Nat)
    (h : a.marshal = some b) : AuthenContinue.unmarshal b = .ok a := by
  unfold AuthenContinue.marshal at h
  split_ifs at h with h1 hab <;> simp at h
  all_goals subst h
  all_goals unfold AuthenContinue.unmarshal umRun
  all_goals simp only [appendUint16, bind_eq_umBind, pure_eq_umPure,
    List.cons_append, List.nil_append, List.append_assoc]
  · -- abort: message marshalled into the data slot
    rw [umBind_lenCheck _ _ _ (by simp only [List.length_cons]; omega)]
    simp only [umBind_uint16, umBind_byte]
    rw [u16_roundtrip 0 (by omega), u16_roundtrip _ (by omega)]
    rw [umBind_lenCheck _ _ _ (by omega)]
    rw [umBind_bytes_zero, umBind_bytes_all]
    simp only [umPure, authenContinue2_flag_decide]
    rw [if_pos hab]
  · -- no abort: message in the user-message slot
    rw [umBind_lenCheck _ _ _ (by simp only [List.length_cons]; omega)]
    simp only [umBind_uint16, umBind_byte]
    rw [u16_roundtrip _ (by omega), u16_roundtrip 0 (by omega)]
    rw [umBind_lenCheck _ _ _ (by omega)]
    rw [umBind_bytes_all]
    rw [umBind_bytes_zero]
    simp only [umPure, authenContinue2_flag_decide]
    rw [if_neg hab]

/-- Round trip for AuthorRequest, including the per-argument loop. -/
theorem authorRequest_roundtrip (a : AuthorRequest) (b : List Nat)
    (h : a.marshal = some b) : AuthorRequest.unmarshal b = .ok a := by
  unfold AuthorRequest.marshal at h
  split_ifs at h with h1 h2 h3 h4 h5 <;> simp at h
  subst h
  have hargs : ∀ s ∈ a.Arg, s.length ≤ 255 := by
    intro s hs
    by_contra hc
    exact h5 (by simp only [List.any_eq_true, decide_eq_true_eq]; exact ⟨s, hs, by omega⟩)
  have hu : a.User.length % 256 = a.User.length := Nat.mod_eq_of_lt (by omega)
  have hp : a.Port.length % 256 = a.Port.length := Nat.mod_eq_of_lt (by omega)
  have hr : a.RemAddr.length % 256 = a.RemAddr.length := Nat.mod_eq_of_lt (by omega)
  have ha : a.Arg.length % 256 = a.Arg.length := Nat.mod_eq_of_lt (by omega)
  unfold AuthorRequest.unmarshal umRun
  simp only [bind_eq_umBind, pure_eq_umPure,
    List.cons_append, List.nil_append, List.append_assoc]
  rw [umBind_lenCheck _ _ _ (by simp only [List.length_cons]; omega)]
  simp only [umBind_byte]
  rw [hu, hp, hr, ha]
  rw [umBind_lenCheck _ _ _
    (by simp only [List.length_append, List.length_map]; omega)]
  rw [umBind_bytes_of a.Arg.length _ (a.Arg.map fun s => s.length % 256) _
    (by simp only [List.length_map])]
  rw [umBind_bytes, umBind_bytes, umBind_bytes]
  simp only [umBind, umArgs_roundtrip a.Arg hargs, umPure]

/-- Round trip for AuthorResponse. -/
theorem authorResponse_roundtrip (a : AuthorResponse) (b : List Nat)
    (h : a.marshal = some b) : AuthorResponse.unmarshal b = .ok a := by
  unfold AuthorResponse.marshal at h
  split_ifs at h with h1 h2 h3 h4 <;> simp at h
  subst h
  have hargs : ∀ s ∈ a.Arg, s.length ≤ 255 := by
    intro s hs
    by_contra hc
    exact h4 (by simp only [List.any_eq_true, decide_eq_true_eq]; exact ⟨s, hs, by omega⟩)
  have ha : a.Arg.length % 256 = a.Arg.length := Nat.mod_eq_of_lt (by omega)
  unfold AuthorResponse.unmarshal umRun
  simp only [appendUint16, bind_eq_umBind, pure_eq_umPure,
    List.cons_append, List.nil_append, List.append_assoc]
  rw [umBind_lenCheck _ _ _ (by simp only [List.length_cons]; omega)]
  simp only [umBind_uint16, umBind_byte]
  rw [ha, u16_roundtrip _ (by omega), u16_roundtrip _ (by omega)]
  rw [umBind_lenCheck _ _ _
    (by simp only [List.length_append, List.length_map]; omega)]
  rw [umBind_bytes_of a.Arg.length _ (a.Arg.map fun s => s.length % 256) _
    (by simp only [List.length_map])]
  rw [umBind_bytes, umBind_bytes]
  simp only [umBind, umArgs_roundtrip a.Arg hargs, umPure]

/-- Round trip for AcctRequest. -/
theorem acctRequest_roundtrip (a : AcctRequest) (b : List Nat)
    (h : a.marshal = some b) : AcctRequest.unmarshal b = .ok a := by
  unfold AcctRequest.marshal at h
  split_ifs at h with h1 h2 h3 h4 h5 <;> simp at h
  subst h
  have hargs : ∀ s ∈ a.Arg, s.length ≤ 255 := by
    intro s hs
    by_contra hc
    exact h5 (by simp only [List.any_eq_true, decide_eq_true_eq]; exact ⟨s, hs, by omega⟩)
  have hu : a.User.length % 256 = a.User.length := Nat.mod_eq_of_lt (by omega)
  have hp : a.Port.length % 256 = a.Port.length := Nat.mod_eq_of_lt (by omega)
  have hr : a.RemAddr.length % 256 = a.RemAddr.length := Nat.mod_eq_of_lt (by omega)
  have ha : a.Arg.length % 256 = a.Arg.length := Nat.mod_eq_of_lt (by omega)
  unfold AcctRequest.unmarshal umRun
  simp only [bind_eq_umBind, pure_eq_umPure,
    List.cons_append, List.nil_append, List.append_assoc]
  rw [umBind_lenCheck _ _ _ (by simp only [List.length_cons]; omega)]
  simp only [umBind_byte]
  rw [hu, hp, hr, ha]
  rw [umBind_lenCheck _ _ _
    (by simp only [List.length_append, List.length_map]; omega)]
  rw [umBind_bytes_of a.Arg.length _ (a.Arg.map fun s => s.length % 256) _
    (by simp only [List.length_map])]
  rw [umBind_bytes, umBind_bytes, umBind_bytes]
  simp only [umBind, umArgs_roundtrip a.Arg hargs, umPure]

/-- Round trip for nullPacket. -/
theorem nullPacket_roundtrip (a : nullPacket) (b : List Nat)
    (h : a.marshal = some b) : nullPacket.unmarshal b = .ok a := rfl

/-!
Decoder totality: the only error a decoder can produce is `bad`
(`errBadPacket`); the out-of-bounds sentinel `oob` is unreachable because
every length field is checked against the remaining buffer first.
-/

/-- An error of `umRun` comes from the underlying decoder. -/
theorem umRun_err {α : Type} {m : UM α} {buf : List Nat} {e : PErr}
    (h : umRun m buf = .error e) : m buf = .error e := by
  unfold umRun at h
  split at h <;> simp_all

/-- Case analysis for a failing `umBind`. -/
theorem umBind_err {α β : Type} {m : UM α} {f : α → UM β} {b : List Nat}
    {e : PErr} (h : umBind m f b = .error e) :
    m b = .error e ∨ ∃ a b2, m b = .ok (a, b2) ∧ f a b2 = .error e := by
  unfold umBind at h
  split at h
  next e2 heq =>
    injection h with h2
    subst h2
    exact Or.inl heq
  next a2 b22 heq =>
    exact Or.inr ⟨a2, b22, heq, h⟩

/-- A failing length guard either signals `bad` or passes control on. -/
theorem umBind_lenCheck_err {β : Type} {n : Nat} {f : Unit → UM β}
    {b : List Nat} {e : PErr} (h : umBind (umLenCheck n) f b = .error e) :
    e = .bad ∨ (n ≤ b.length ∧ f () b = .error e) := by
  by_cases hn : b.length < n
  · left
    unfold umBind umLenCheck at h
    rw [if_pos hn] at h
    simp_all
  · right
    rw [umBind_lenCheck _ _ _ (by omega)] at h
    exact ⟨by omega, h⟩

/-- A byte read from a nonempty buffer always succeeds. -/
theorem umBind_byte_err {β : Type} {f : Nat → UM β} {b : List Nat} {e : PErr}
    (h : umBind umByte f b = .error e) (hlen : 1 ≤ b.length) :
    ∃ c r, b = c :: r ∧ f c r = .error e := by
  cases b with
  | nil => simp at hlen
  | cons c r => exact ⟨c, r, rfl, h⟩

/-- A u16 read from a buffer of length at least two always succeeds. -/
theorem umBind_uint16_err {β : Type} {f : Nat → UM β} {b : List Nat} {e : PErr}
    (h : umBind umUint16 f b = .error e) (hlen : 2 ≤ b.length) :
    ∃ c0 c1 r, b = c0 :: c1 :: r ∧ f (c0 * 256 + c1) r = .error e := by
  cases b with
  | nil => simp at hlen
  | cons c0 t =>
    cases t with
    | nil => simp at hlen
    | cons c1 r => exact ⟨c0, c1, r, rfl, h⟩

/-- A checked bulk read always succeeds. -/
theorem umBind_bytes_err {β : Type} {n : Nat} {f : List Nat → UM β}
    {b : List Nat} {e : PErr} (h : umBind (umBytes n) f b = .error e)
    (hlen : n ≤ b.length) :
    f (b.take n) (b.drop n) = .error e := by
  unfold umBind umBytes at h
  rw [if_pos hlen] at h
  exact h

/-- The per-argument loop checks each recorded length before reading, so
its only possible error is `bad`. -/
theorem umArgs_err (al : List Nat) :
    ∀ (b : List Nat) (e : PErr), umArgs al b = .error e → e = .bad := by
  induction al with
  | nil => intro b e h; simp [umArgs, umPure] at h
  | cons n ns ih =>
    intro b e h
    rcases umBind_lenCheck_err h with he | ⟨hn, h⟩
    · exact he
    have h := umBind_bytes_err h hn
    rcases umBind_err h with h | ⟨a2, b2, _, h⟩
    · exact ih _ _ h
    · simp [umPure] at h

/-- AuthenStart decoding never goes out of bounds. -/
theorem authenStart_unmarshal_err (buf : List Nat) (e : PErr)
    (h : AuthenStart.unmarshal buf = .error e) : e = .bad := by
  unfold AuthenStart.unmarshal at h
  have h0 := umRun_err h
  simp only [bind_eq_umBind, pure_eq_umPure] at h0
  rcases umBind_lenCheck_err h0 with he | ⟨hl, h1⟩
  · exact he
  obtain ⟨x1, r1, rfl, h2⟩ := umBind_byte_err h1 (show 1 ≤ buf.length by omega)
  simp only [List.length_cons] at hl
  obtain ⟨x2, r2, rfl, h3⟩ := umBind_byte_err h2 (show 1 ≤ r1.length by omega)
  simp only [List.length_cons] at hl
  obtain ⟨x3, r3, rfl, h4⟩ := umBind_byte_err h3 (show 1 ≤ r2.length by omega)
  simp only [List.length_cons] at hl
  obtain ⟨x4, r4, rfl, h5⟩ := umBind_byte_err h4 (show 1 ≤ r3.length by omega)
  simp only [List.length_cons] at hl
  obtain ⟨x5, r5, rfl, h6⟩ := umBind_byte_err h5 (show 1 ≤ r4.length by omega)
  simp only [List.length_cons] at hl
  obtain ⟨x6, r6, rfl, h7⟩ := umBind_byte_err h6 (show 1 ≤ r5.length by omega)
  simp only [List.length_cons] at hl
  obtain ⟨x7, r7, rfl, h8⟩ := umBind_byte_err h7 (show 1 ≤ r6.length by omega)
  simp only [List.length_cons] at hl
  obtain ⟨x8, r8, rfl, h9⟩ := umBind_byte_err h8 (show 1 ≤ r7.length by omega)
  simp only [List.length_cons] at hl
  rcases umBind_lenCheck_err h9 with he | ⟨hl2, h10⟩
  · exact he
  have h11 := umBind_bytes_err h10 (show x5 ≤ r8.length by omega)
  have h12 := umBind_bytes_err h11 (show x6 ≤ (r8.drop (x5)).length by simp only [List.length_drop]; omega)
  have h13 := umBind_bytes_err h12 (show x7 ≤ ((r8.drop (x5)).drop (x6)).length by simp only [List.length_drop]; omega)
  have h14 := umBind_bytes_err h13 (show x8 ≤ (((r8.drop (x5)).drop (x6)).drop (x7)).length by simp only [List.length_drop]; omega)
  simp [umPure] at h14

/-- AuthenReply decoding never goes out of bounds. -/
theorem authenReply_unmarshal_err (buf : List Nat) (e : PErr)
    (h : AuthenReply.unmarshal buf = .error e) : e = .bad := by
  unfold AuthenReply.unmarshal at h
  have h0 := umRun_err h
  simp only [bind_eq_umBind, pure_eq_umPure] at h0
  rcases umBind_lenCheck_err h0 with he | ⟨hl, h1⟩
  · exact he
  obtain ⟨x1, r1, rfl, h2⟩ := umBind_byte_err h1 (show 1 ≤ buf.length by omega)
  simp only [List.length_cons] at hl
  obtain ⟨x2, r2, rfl, h3⟩ := umBind_byte_err h2 (show 1 ≤ r1.length by omega)
  simp only [List.length_cons] at hl
  obtain ⟨y1, y2, r3, rfl, h4⟩ := umBind_uint16_err h3 (show 2 ≤ r2.length by omega)
  simp only [List.length_cons] at hl
  obtain ⟨y3, y4, r4, rfl, h5⟩ := umBind_uint16_err h4 (show 2 ≤ r3.length by omega)
  simp only [List.length_cons] at hl
  rcases umBind_lenCheck_err h5 with he | ⟨hl2, h6⟩
  · exact he
  have h7 := umBind_bytes_err h6 (show y1 * 256 + y2 ≤ r4.length by omega)
  have h8 := umBind_bytes_err h7 (show y3 * 256 + y4 ≤ (r4.drop (y1 * 256 + y2)).length by simp only [List.length_drop]; omega)
  simp [umPure] at h8

/-- authenContinue decoding never goes out of bounds. -/
theorem authenContinue_unmarshal_err (buf : List Nat) (e : PErr)
    (h : authenContinue.unmarshal buf = .error e) : e = .bad := by
  unfold authenContinue.unmarshal at h
  have h0 := umRun_err h
  simp only [bind_eq_umBind, pure_eq_umPure] at h0
  rcases umBind_lenCheck_err h0 with he | ⟨hl, h1⟩
  · exact he
  obtain ⟨y1, y2, r1, rfl, h2⟩ := umBind_uint16_err h1 (show 2 ≤ buf.length by omega)
  simp only [List.length_cons] at hl
  obtain ⟨y3, y4, r2, rfl, h3⟩ := umBind_uint16_err h2 (show 2 ≤ r1.length by omega)
  simp only [List.length_cons] at hl
  obtain ⟨x1, r3, rfl, h4⟩ := umBind_byte_err h3 (show 1 ≤ r2.length by omega)
  simp only [List.length_cons] at hl
  rcases umBind_lenCheck_err h4 with he | ⟨hl2, h5⟩
  · exact he
  have h6 := umBind_bytes_err h5 (show y1 * 256 + y2 ≤ r3.length by omega)
  have h7 := umBind_bytes_err h6 (show y3 * 256 + y4 ≤ (r3.drop (y1 * 256 + y2)).length by simp only [List.length_drop]; omega)
  simp [umPure] at h7

/-- AuthenContinue decoding never goes out of bounds. -/
theorem authenContinue2_unmarshal_err (buf : List Nat) (e : PErr)
    (h : AuthenContinue.unmarshal buf = .error e) : e = .bad := by
  unfold AuthenContinue.unmarshal at h
  have h0 := umRun_err h
  simp only [bind_eq_umBind, pure_eq_umPure] at h0
  rcases umBind_lenCheck_err h0 with he | ⟨hl, h1⟩
  · exact he
  obtain ⟨y1, y2, r1, rfl, h2⟩ := umBind_uint16_err h1 (show 2 ≤ buf.length by omega)
  simp only [List.length_cons] at hl
  obtain ⟨y3, y4, r2, rfl, h3⟩ := umBind_uint16_err h2 (show 2 ≤ r1.length by omega)
  simp only [List.length_cons] at hl
  obtain ⟨x1, r3, rfl, h4⟩ := umBind_byte_err h3 (show 1 ≤ r2.length by omega)
  simp only [List.length_cons] at hl
  rcases umBind_lenCheck_err h4 with he | ⟨hl2, h5⟩
  · exact he
  have h6 := umBind_bytes_err h5 (show y1 * 256 + y2 ≤ r3.length by omega)
  have h7 := umBind_bytes_err h6 (show y3 * 256 + y4 ≤ (r3.drop (y1 * 256 + y2)).length by simp only [List.length_drop]; omega)
  simp [umPure] at h7

/-- AuthorRequest decoding (with its argument loop) never goes out of
bounds. -/
theorem authorRequest_unmarshal_err (buf : List Nat) (e : PErr)
    (h : AuthorRequest.unmarshal buf = .error e) : e = .bad := by
  unfold AuthorRequest.unmarshal at h
  have h0 := umRun_err h
  simp only [bind_eq_umBind, pure_eq_umPure] at h0
  rcases umBind_lenCheck_err h0 with he | ⟨hl, h1⟩
  · exact he
  obtain ⟨x1, r1, rfl, h2⟩ := umBind_byte_err h1 (show 1 ≤ buf.length by omega)
  simp only [List.length_cons] at hl
  obtain ⟨x2, r2, rfl, h3⟩ := umBind_byte_err h2 (show 1 ≤ r1.length by omega)
  simp only [List.length_cons] at hl
  obtain ⟨x3, r3, rfl, h4⟩ := umBind_byte_err h3 (show 1 ≤ r2.length by omega)
  simp only [List.length_cons] at hl
  obtain ⟨x4, r4, rfl, h5⟩ := umBind_byte_err h4 (show 1 ≤ r3.length by omega)
  simp only [List.length_cons] at hl
  obtain ⟨x5, r5, rfl, h6⟩ := umBind_byte_err h5 (show 1 ≤ r4.length by omega)
  simp only [List.length_cons] at hl
  obtain ⟨x6, r6, rfl, h7⟩ := umBind_byte_err h6 (show 1 ≤ r5.length by omega)
  simp only [List.length_cons] at hl
  obtain ⟨x7, r7, rfl, h8⟩ := umBind_byte_err h7 (show 1 ≤ r6.length by omega)
  simp only [List.length_cons] at hl
  obtain ⟨x8, r8, rfl, h9⟩ := umBind_byte_err h8 (show 1 ≤ r7.length by omega)
  simp only [List.length_cons] at hl
  rcases umBind_lenCheck_err h9 with he | ⟨hl2, h10⟩
  · exact he
  have h11 := umBind_bytes_err h10 (show x8 ≤ r8.length by omega)
  have h12 := umBind_bytes_err h11 (show x5 ≤ (r8.drop (x8)).length by simp only [List.length_drop]; omega)
  have h13 := umBind_bytes_err h12 (show x6 ≤ ((r8.drop (x8)).drop (x5)).length by simp only [List.length_drop]; omega)
  have h14 := umBind_bytes_err h13 (show x7 ≤ (((r8.drop (x8)).drop (x5)).drop (x6)).length by simp only [List.length_drop]; omega)
  rcases umBind_err h14 with hA | ⟨a2, b2, _, hB⟩
  · exact umArgs_err _ _ _ hA
  · simp [umPure] at hB

/-- AuthorResponse decoding never goes out of bounds. -/
theorem authorResponse_unmarshal_err (buf : List Nat) (e : PErr)
    (h : AuthorResponse.unmarshal buf = .error e) : e = .bad := by
  unfold AuthorResponse.unmarshal at h
  have h0 := umRun_err h
  simp only [bind_eq_umBind, pure_eq_umPure] at h0
  rcases umBind_lenCheck_err h0 with he | ⟨hl, h1⟩
  · exact he
  obtain ⟨x1, r1, rfl, h2⟩ := umBind_byte_err h1 (show 1 ≤ buf.length by omega)
  simp only [List.length_cons] at hl
  obtain ⟨x2, r2, rfl, h3⟩ := umBind_byte_err h2 (show 1 ≤ r1.length by omega)
  simp only [List.length_cons] at hl
  obtain ⟨y1, y2, r3, rfl, h4⟩ := umBind_uint16_err h3 (show 2 ≤ r2.length by omega)
  simp only [List.length_cons] at hl
  obtain ⟨y3, y4, r4, rfl, h5⟩ := umBind_uint16_err h4 (show 2 ≤ r3.length by omega)
  simp only [List.length_cons] at hl
  rcases umBind_lenCheck_err h5 with he | ⟨hl2, h6⟩
  · exact he
  have h7 := umBind_bytes_err h6 (show x2 ≤ r4.length by omega)
  have h8 := umBind_bytes_err h7 (show y1 * 256 + y2 ≤ (r4.drop (x2)).length by simp only [List.length_drop]; omega)
  have h9 := umBind_bytes_err h8 (show y3 * 256 + y4 ≤ ((r4.drop (x2)).drop (y1 * 256 + y2)).length by simp only [List.length_drop]; omega)
  rcases umBind_err h9 with hA | ⟨a2, b2, _, hB⟩
  · exact umArgs_err _ _ _ hA
  · simp [umPure] at hB

/-- AcctRequest decoding never goes out of bounds. -/
theorem acctRequest_unmarshal_err (buf : List Nat) (e : PErr)
    (h : AcctRequest.unmarshal buf = .error e) : e = .bad := by
  unfold AcctRequest.unmarshal at h
  have h0 := umRun_err h
  simp only [bind_eq_umBind, pure_eq_umPure] at h0
  rcases umBind_lenCheck_err h0 with he | ⟨hl, h1⟩
  · exact he
  obtain ⟨x1, r1, rfl, h2⟩ := umBind_byte_err h1 (show 1 ≤ buf.length by omega)
  simp only [List.length_cons] at hl
  obtain ⟨x2, r2, rfl, h3⟩ := umBind_byte_err h2 (show 1 ≤ r1.length by omega)
  simp only [List.length_cons] at hl
  obtain ⟨x3, r3, rfl, h4⟩ := umBind_byte_err h3 (show 1 ≤ r2.length by omega)
  simp only [List.length_cons] at hl
  obtain ⟨x4, r4, rfl, h5⟩ := umBind_byte_err h4 (show 1 ≤ r3.length by omega)
  simp only [List.length_cons] at hl
  obtain ⟨x5, r5, rfl, h6⟩ := umBind_byte_err h5 (show 1 ≤ r4.length by omega)
  simp only [List.length_cons] at hl
  obtain ⟨x6, r6, rfl, h7⟩ := umBind_byte_err h6 (show 1 ≤ r5.length by omega)
  simp only [List.length_cons] at hl
  obtain ⟨x7, r7, rfl, h8⟩ := umBind_byte_err h7 (show 1 ≤ r6.length by omega)
  simp only [List.length_cons] at hl
  obtain ⟨x8, r8, rfl, h9⟩ := umBind_byte_err h8 (show 1 ≤ r7.length by omega)
  simp only [List.length_cons] at hl
  obtain ⟨x9, r9, rfl, h10⟩ := umBind_byte_err h9 (show 1 ≤ r8.length by omega)
  simp only [List.length_cons] at hl
  rcases umBind_lenCheck_err h10 with he | ⟨hl2, h11⟩
  · exact he
  have h12 := umBind_bytes_err h11 (show x9 ≤ r9.length by omega)
  have h13 := umBind_bytes_err h12 (show x6 ≤ (r9.drop (x9)).length by simp only [List.length_drop]; omega)
  have h14 := umBind_bytes_err h13 (show x7 ≤ ((r9.drop (x9)).drop (x6)).length by simp only [List.length_drop]; omega)
  have h15 := umBind_bytes_err h14 (show x8 ≤ (((r9.drop (x9)).drop (x6)).drop (x7)).length by simp only [List.length_drop]; omega)
  rcases umBind_err h15 with hA | ⟨a2, b2, _, hB⟩
  · exact umArgs_err _ _ _ hA
  · simp [umPure] at hB

/-- AcctReply decoding never goes out of bounds. -/
theorem acctReply_unmarshal_err (buf : List Nat) (e : PErr)
    (h : AcctReply.unmarshal buf = .error e) : e = .bad := by
  unfold AcctReply.unmarshal at h
  have h0 := umRun_err h
  simp only [bind_eq_umBind, pure_eq_umPure] at h0
  rcases umBind_lenCheck_err h0 with he | ⟨hl, h1⟩
  · exact he
  obtain ⟨y1, y2, r1, rfl, h2⟩ := umBind_uint16_err h1 (show 2 ≤ buf.length by omega)
  simp only [List.length_cons] at hl
  obtain ⟨y3, y4, r2, rfl, h3⟩ := umBind_uint16_err h2 (show 2 ≤ r1.length by omega)
  simp only [List.length_cons] at hl
  obtain ⟨x1, r3, rfl, h4⟩ := umBind_byte_err h3 (show 1 ≤ r2.length by omega)
  simp only [List.length_cons] at hl
  rcases umBind_lenCheck_err h4 with he | ⟨hl2, h5⟩
  · exact he
  have h6 := umBind_bytes_err h5 (show y1 * 256 + y2 ≤ r3.length by omega)
  have h7 := umBind_bytes_err h6 (show y3 * 256 + y4 ≤ (r3.drop (y1 * 256 + y2)).length by simp only [List.length_drop]; omega)
  simp [umPure] at h7

/-- Round trip for AcctReply. -/
theorem acctReply_roundtrip (a : AcctReply) (b : List Nat)
    (h : a.marshal = some b) : AcctReply.unmarshal b = .ok a := by
  unfold AcctReply.marshal at h
  split_ifs at h with h1 h2 <;> simp at h
  subst h
  unfold AcctReply.unmarshal umRun
  simp only [appendUint16, bind_eq_umBind, pure_eq_umPure,
    List.cons_append, List.nil_append, List.append_assoc]
  rw [umBind_lenCheck _ _ _ (by simp only [List.length_cons]; omega)]
  simp only [umBind_uint16, umBind_byte]
  rw [u16_roundtrip _ (by omega), u16_roundtrip _ (by omega)]
  rw [umBind_lenCheck _ _ _ (by simp only [List.length_append]; omega)]
  rw [umBind_bytes, umBind_bytes_all]
  rfl

/-!
The obfuscation involution: `crypt` XORs the body with a keystream that
depends only on the header and the key, so applying it twice restores the
packet.
-/

/-- An MD5 digest is 16 bytes. -/
theorem md5_length (m : List Nat) : (md5 m).length = 16 := by
  simp [md5, le32]

/-- The keystream provides 16 bytes per block. -/
theorem keystream_length (n : Nat) :
    ∀ seed prev, (keystream seed prev n).length = 16 * n := by
  induction n with
  | zero => intro seed prev; rfl
  | succ n ih =>
    intro seed prev
    simp only [keystream, List.length_append, md5_length, ih]
    omega

/-- The obfuscation loop on an empty body is empty. -/
theorem cryptBlocks_nil (n : Nat) (seed prev : List Nat) :
    cryptBlocks n seed prev [] = [] := by
  cases n <;> rfl

/-- Zipping ignores the part of the right list beyond the left one. -/
theorem zipWith_right_ext (f : Nat → Nat → Nat) (u : List Nat) :
    ∀ v w : List Nat, u.length ≤ v.length →
      List.zipWith f u (v ++ w) = List.zipWith f u v := by
  induction u with
  | nil => intro v w _; simp
  | cons a u ih =>
    intro v w h
    cases v with
    | nil => simp at h
    | cons c v =>
      simp only [List.cons_append, List.zipWith_cons_cons]
      rw [ih v w (by simp at h; omega)]

/-- Zipping ignores truncation of the right list beyond the left one. -/
theorem zipWith_right_take (f : Nat → Nat → Nat) (u : List Nat) :
    ∀ (v : List Nat) (n : Nat), u.length ≤ n →
      List.zipWith f u (v.take n) = List.zipWith f u v := by
  induction u with
  | nil => intro v n _; simp
  | cons a u ih =>
    intro v n h
    cases v with
    | nil => simp
    | cons c v =>
      cases n with
      | zero => simp at h
      | succ n =>
        simp only [List.take_succ_cons, List.zipWith_cons_cons]
        rw [ih v n (by simp at h; omega)]

/-- `cryptBlocks` is exactly an XOR of the body against the digest-chain
keystream, provided enough blocks are allowed. -/
theorem cryptBlocks_eq_zip (n : Nat) :
    ∀ seed prev body : List Nat, body.length ≤ 16 * n →
      cryptBlocks n seed prev body =
        List.zipWith (fun x y => x ^^^ y) body (keystream seed prev n) := by
  induction n with
  | zero =>
    intro seed prev body h
    have hb : body = [] := List.eq_nil_of_length_eq_zero (by omega)
    subst hb
    rfl
  | succ n ih =>
    intro seed prev body h
    cases body with
    | nil => simp [cryptBlocks_nil]
    | cons b bs =>
      have hs := md5_length (seed ++ prev)
      simp only [cryptBlocks, keystream]
      by_cases hlt : (b :: bs).length < (md5 (seed ++ prev)).length
      · rw [if_pos hlt]
        have hk : ((md5 (seed ++ prev)).take (b :: bs).length).length
            = (b :: bs).length := by
          simp only [List.length_take]
          omega
        rw [hk, List.take_length, List.drop_length, cryptBlocks_nil, List.append_nil]
        rw [zipWith_right_ext _ _ _ _ (by omega)]
        rw [zipWith_right_take _ _ _ _ (le_refl _)]
      · rw [if_neg hlt, hs]
        rw [ih seed _ _ (by simp only [List.length_drop]; omega)]
        conv_rhs => rw [show (b :: bs) = (b :: bs).take 16 ++ (b :: bs).drop 16 from
          (List.take_append_drop 16 (b :: bs)).symm]
        rw [List.zipWith_append _ _ _ _ _ (by simp only [List.length_take]; omega)]

/-- XORing twice with the same right-hand list is the identity. -/
theorem zipWith_xor_cancel (u : List Nat) :
    ∀ v : List Nat, u.length ≤ v.length →
      List.zipWith (fun x y => x ^^^ y)
        (List.zipWith (fun x y => x ^^^ y) u v) v = u := by
  induction u with
  | nil => intro v _; simp
  | cons a u ih =>
    intro v h
    cases v with
    | nil => simp at h
    | cons c v =>
      simp only [List.zipWith_cons_cons]
      rw [ih v (by simp at h; omega), Nat.xor_cancel_right]

/-- The obfuscation loop is an involution. -/
theorem cryptBlocks_involution (n : Nat) (seed prev body : List Nat)
    (h : body.length ≤ 16 * n) :
    cryptBlocks n seed prev (cryptBlocks n seed prev body) = body := by
  rw [cryptBlocks_eq_zip n seed prev body h]
  rw [cryptBlocks_eq_zip n seed prev _
    (by simp only [List.length_zipWith, keystream_length]; omega)]
  exact zipWith_xor_cancel _ _
    (by simp only [List.length_zipWith, keystream_length]; omega)

/-- The obfuscation loop preserves the body length. -/
theorem cryptBlocks_length (n : Nat) (seed prev body : List Nat)
    (h : body.length ≤ 16 * n) :
    (cryptBlocks n seed prev body).length = body.length := by
  rw [cryptBlocks_eq_zip n seed prev body h]
  simp only [List.length_zipWith, keystream_length]
  omega

/-- `crypt` keeps the 12 header bytes. -/
theorem crypt_take (p key : List Nat) (h : hdrLen ≤ p.length) :
    (crypt p key).take hdrLen = p.take hdrLen := by
  unfold crypt
  rw [List.take_append_eq_append_take]
  rw [List.take_of_length_le (by simp only [List.length_take]; omega)]
  rw [show hdrLen - (p.take hdrLen).length = 0 by simp only [List.length_take]; omega]
  simp

/-- `crypt` transforms exactly the body. -/
theorem crypt_drop (p key : List Nat) (h : hdrLen ≤ p.length) :
    (crypt p key).drop hdrLen =
      cryptBlocks (((p.drop hdrLen).length + 15) / 16) (cryptSeed p key) []
        (p.drop hdrLen) := by
  unfold crypt
  rw [List.drop_append_eq_append_drop]
  rw [List.drop_eq_nil_of_le (by simp only [List.length_take]; omega)]
  rw [show hdrLen - (p.take hdrLen).length = 0 by simp only [List.length_take]; omega]
  simp

/-- `crypt` preserves the packet length. -/
theorem crypt_length (p key : List Nat) (h : hdrLen ≤ p.length) :
    (crypt p key).length = p.length := by
  unfold crypt
  rw [List.length_append, cryptBlocks_length _ _ _ _ (by omega)]
  simp only [List.length_take, List.length_drop]
  omega

/-- The keystream seed reads only header bytes, which `crypt` preserves. -/
theorem cryptSeed_crypt (p key : List Nat) (h : hdrLen ≤ p.length) :
    cryptSeed (crypt p key) key = cryptSeed p key := by
  have ht : (crypt p key).take hdrLen = p.take hdrLen := crypt_take p key h
  have hgd : ∀ i, i < hdrLen → (crypt p key).getD i 0 = p.getD i 0 := by
    intro i hi
    rw [List.getD_eq_getElem?_getD, List.getD_eq_getElem?_getD]
    have h1 : ((crypt p key).take hdrLen)[i]? = (p.take hdrLen)[i]? := by rw [ht]
    rw [List.getElem?_take, List.getElem?_take, if_pos hi, if_pos hi] at h1
    rw [h1]
  have hd4 : ((crypt p key).drop 4).take 4 = (p.drop 4).take 4 := by
    have h2 : ((crypt p key).take hdrLen).drop 4 = (p.take hdrLen).drop 4 := by
      rw [ht]
    rw [List.drop_take, List.drop_take] at h2
    have h3 : (((crypt p key).drop 4).take (hdrLen - 4)).take 4
        = ((p.drop 4).take (hdrLen - 4)).take 4 := by rw [h2]
    rw [List.take_take, List.take_take] at h3
    have h4 : min 4 (hdrLen - 4) = 4 := by norm_num [hdrLen]
    rw [h4] at h3
    exact h3
  unfold cryptSeed
  rw [hd4, hgd 0 (by norm_num [hdrLen]), hgd 2 (by norm_num [hdrLen])]

/-- Applying `crypt` twice with the same key restores the packet. -/
theorem crypt_involution (p key : List Nat) (h : hdrLen ≤ p.length) :
    crypt (crypt p key) key = p := by
  have hseed := cryptSeed_crypt p key h
  have hlen : (crypt p key).length = p.length := crypt_length p key h
  conv_lhs => rw [crypt]
  rw [crypt_take p key h, crypt_drop p key h, hseed]
  rw [cryptBlocks_length _ _ _ _ (by omega)]
  rw [cryptBlocks_involution _ _ _ _ (by omega)]
  exact List.take_append_drop hdrLen p

/-- `crypt` preserves every header byte (index below 12). -/
theorem crypt_getElem_header (p key : List Nat) (h : hdrLen ≤ p.length)
    (i : Nat) (hi : i < hdrLen) : (crypt p key)[i]? = p[i]? := by
  have h1 : ((crypt p key).take hdrLen)[i]? = (p.take hdrLen)[i]? := by
    rw [crypt_take p key h]
  rw [List.getElem?_take, List.getElem?_take, if_pos hi, if_pos hi] at h1
  exact h1

/-- `crypt` preserves every header byte, `getD` form. -/
theorem crypt_getD_header (p key : List Nat) (h : hdrLen ≤ p.length)
    (i : Nat) (hi : i < hdrLen) : (crypt p key).getD i 0 = p.getD i 0 := by
  rw [List.getD_eq_getElem?_getD, List.getD_eq_getElem?_getD,
    crypt_getElem_header p key h i hi]

/-- The sequence byte of the packet emitted by `sessionWritePacket` is the
stored new sequence number: the sequence byte of the buffer incremented mod 256
(the `uint8` increment `p[hdrSeqNo]++`). -/
theorem sessionWritePacket_seq (key p : List Nat) (h : hdrLen ≤ p.length) :
    (sessionWritePacket key p).1 = (p.getD 2 0 + 1) % 256 ∧
    (sessionWritePacket key p).2.getD 2 0 = (p.getD 2 0 + 1) % 256 := by
  have h12 : 12 ≤ p.length := by simpa [hdrLen] using h
  constructor
  · rfl
  · unfold sessionWritePacket
    rw [crypt_getD_header _ key (by simp only [List.length_set]; omega) 2
      (by norm_num [hdrLen])]
    rw [List.getD_eq_getElem?_getD]
    rw [List.getElem?_set_ne (by omega), List.getElem?_set_ne (by omega),
      List.getElem?_set_ne (by omega), List.getElem?_set_ne (by omega)]
    rw [List.getElem?_set_self (show 2 < p.length by omega)]
    rfl

/-- A decoder whose only possible error is `bad` either succeeds or
returns `bad`. -/
theorem total_of_err {α : Type} (f : List Nat → Except PErr α)
    (hf : ∀ buf e, f buf = .error e → e = .bad) (buf : List Nat) :
    (∃ v, f buf = .ok v) ∨ f buf = .error .bad := by
  cases hv : f buf with
  | ok v => exact Or.inl ⟨v, rfl⟩
  | error e =>
    have he := hf buf e hv
    subst he
    exact Or.inr rfl

/-!
Claim theorems.
-/

/-- C1: for every packet kind and every value that marshals successfully,
unmarshalling the marshalled body bytes restores the original value —
including values with empty or absent argument lists and empty byte-string
fields. -/
theorem c1_marshal_unmarshal_roundtrip :
    (∀ (a : AuthenStart) (b : List Nat), a.marshal = some b →
      AuthenStart.unmarshal b = .ok a) ∧
    (∀ (a : AuthenReply) (b : List Nat), a.marshal = some b →
      AuthenReply.unmarshal b = .ok a) ∧
    (∀ (a : authenContinue) (b : List Nat), a.marshal = some b →
      authenContinue.unmarshal b = .ok a) ∧
    (∀ (a : AuthenContinue) (b : List Nat), a.marshal = some b →
      AuthenContinue.unmarshal b = .ok a) ∧
    (∀ (a : AuthorRequest) (b : List Nat), a.marshal = some b →
      AuthorRequest.unmarshal b = .ok a) ∧
    (∀ (a : AuthorResponse) (b : List Nat), a.marshal = some b →
      AuthorResponse.unmarshal b = .ok a) ∧
    (∀ (a : AcctRequest) (b : List Nat), a.marshal = some b →
      AcctRequest.unmarshal b = .ok a) ∧
    (∀ (a : AcctReply) (b : List Nat), a.marshal = some b →
      AcctReply.unmarshal b = .ok a) ∧
    (∀ (a : nullPacket) (b : List Nat), a.marshal = some b →
      nullPacket.unmarshal b = .ok a) :=
  ⟨authenStart_roundtrip, authenReply_roundtrip, authenContinue_roundtrip,
   authenContinue2_roundtrip, authorRequest_roundtrip, authorResponse_roundtrip,
   acctRequest_roundtrip, acctReply_roundtrip, nullPacket_roundtrip⟩

/-- C1 witness: the round trip instantiated on concrete sample packets,
among them an AuthenStart with empty `User`, an AuthorRequest containing an
empty argument, and an AuthorResponse with an empty argument list. -/
theorem c1_marshal_unmarshal_roundtrip_witness :
    AuthenStart.unmarshal ((exAuthenStart.marshal).getD []) = .ok exAuthenStart ∧
    AuthenReply.unmarshal ((exAuthenReply.marshal).getD []) = .ok exAuthenReply ∧
    authenContinue.unmarshal ((exAuthenContinue1.marshal).getD []) = .ok exAuthenContinue1 ∧
    AuthenContinue.unmarshal ((exAuthenContinue2.marshal).getD []) = .ok exAuthenContinue2 ∧
    AuthorRequest.unmarshal ((exAuthorRequest.marshal).getD []) = .ok exAuthorRequest ∧
    AuthorResponse.unmarshal ((exAuthorResponse.marshal).getD []) = .ok exAuthorResponse ∧
    AcctRequest.unmarshal ((exAcctRequest.marshal).getD []) = .ok exAcctRequest ∧
    AcctReply.unmarshal ((exAcctReply.marshal).getD []) = .ok exAcctReply ∧
    nullPacket.unmarshal ((nullPacket.marshal {}).getD []) = .ok {} :=
  ⟨c1_marshal_unmarshal_roundtrip.1 _ _ (by rfl),
   c1_marshal_unmarshal_roundtrip.2.1 _ _ (by rfl),
   c1_marshal_unmarshal_roundtrip.2.2.1 _ _ (by rfl),
   c1_marshal_unmarshal_roundtrip.2.2.2.1 _ _ (by rfl),
   c1_marshal_unmarshal_roundtrip.2.2.2.2.1 _ _ (by rfl),
   c1_marshal_unmarshal_roundtrip.2.2.2.2.2.1 _ _ (by rfl),
   c1_marshal_unmarshal_roundtrip.2.2.2.2.2.2.1 _ _ (by rfl),
   c1_marshal_unmarshal_roundtrip.2.2.2.2.2.2.2.1 _ _ (by rfl),
   c1_marshal_unmarshal_roundtrip.2.2.2.2.2.2.2.2 _ _ (by rfl)⟩

/-- C2: the body obfuscation is an involution — applying `crypt` twice with
the same key to a 12-byte-header-plus-body packet restores the packet. -/
theorem c2_crypt_involution (p key : List Nat) (h : hdrLen ≤ p.length) :
    crypt (crypt p key) key = p :=
  crypt_involution p key h

/-- C2 witness: the involution on a concrete 14-byte packet and key. -/
theorem c2_crypt_involution_witness :
    hdrLen ≤ exPacket.length ∧ crypt (crypt exPacket exKey) exKey = exPacket :=
  ⟨by decide, c2_crypt_involution exPacket exKey (by decide)⟩

/-- C3 counterexample: a server with `Mux` set and `LegacyMux` clear,
writing the first reply (sequence byte 1) for a client whose request had no
flags set, leaves the flags byte 0 — the single-connection flag 0x04 is not
set regardless of the request flags of the client, contrary to the claim; the
code masks (`&=`) rather than sets. -/
theorem c3_counterexample :
    (serverWritePacketFlags true false exHeaderSeq1).getD 3 0 = 0 ∧
    (serverWritePacketFlags true false exHeaderSeq1).getD 3 0 ≠ hdrFlagSingleConnect := by
  decide

/-- C3 (amended): on the first reply of a session (header sequence byte
still 1), if `Mux` or `LegacyMux` is set the flags byte is masked with the
single-connection bit (`p[hdrFlags] &= 0x04`), so 0x04 survives exactly
when the client set it and every other flag is cleared; if neither option
is set, the flags byte is zeroed. -/
theorem c3_server_first_reply_flags (mux legacyMux : Bool) (p : List Nat)
    (hlen : hdrLen ≤ p.length) (hseq : p.getD 2 0 = 1) :
    ((mux || legacyMux) = true →
      (serverWritePacketFlags mux legacyMux p).getD 3 0 =
        p.getD 3 0 &&& hdrFlagSingleConnect) ∧
    ((mux || legacyMux) = false →
      (serverWritePacketFlags mux legacyMux p).getD 3 0 = 0) := by
  have h12 : 12 ≤ p.length := by simpa [hdrLen] using hlen
  constructor
  · intro hm
    unfold serverWritePacketFlags
    rw [if_pos hseq, if_pos hm]
    rw [List.getD_eq_getElem?_getD,
      List.getElem?_set_self (show 3 < p.length by omega)]
    rfl
  · intro hm
    unfold serverWritePacketFlags
    rw [if_pos hseq, if_neg (by simp [hm])]
    rw [List.getD_eq_getElem?_getD,
      List.getElem?_set_self (show 3 < p.length by omega)]
    rfl

/-- C3 witness: the amended behaviour on concrete headers. -/
theorem c3_server_first_reply_flags_witness :
    (serverWritePacketFlags true false exHeaderSeq1).getD 3 0 =
      exHeaderSeq1.getD 3 0 &&& hdrFlagSingleConnect ∧
    (serverWritePacketFlags false false exHeaderSeq1).getD 3 0 = 0 :=
  ⟨(c3_server_first_reply_flags true false exHeaderSeq1 (by decide) (by decide)).1
      (by decide),
   (c3_server_first_reply_flags false false exHeaderSeq1 (by decide) (by decide)).2
      (by decide)⟩

/-- C4 counterexample: `session.writePacket` has no terminal-sequence
check.  On a buffer whose sequence byte is `0xff` it succeeds and emits a
packet with the wrapped sequence number 0 (the `uint8` increment wraps),
instead of failing as the claim states. -/
theorem c4_counterexample :
    (sessionWritePacket [] exHeaderSeqFF).1 = 0 ∧
    (sessionWritePacket [] exHeaderSeqFF).2.getD 2 0 = 0 := by
  decide

/-- C4 (amended): each packet written by `session.writePacket` carries a
sequence number one greater (mod 256) than the one in the reused packet
buffer — the previous packet of the session — so a fresh session buffer
(sequence byte 0) produces the first packet with sequence number 1; at
0xff the increment wraps to 0 without error (`writePacket` itself never
fails on overflow; the only guard is the client `Continue` refusal at
`seq >= 0xfe`). -/
theorem c4_session_writePacket_seq (key p : List Nat) (h : hdrLen ≤ p.length) :
    (sessionWritePacket key p).1 = (p.getD 2 0 + 1) % 256 ∧
    (sessionWritePacket key p).2.getD 2 0 = (p.getD 2 0 + 1) % 256 ∧
    (p.getD 2 0 = 0 → (sessionWritePacket key p).1 = 1) := by
  obtain ⟨h1, h2⟩ := sessionWritePacket_seq key p h
  exact ⟨h1, h2, fun h0 => by rw [h1, h0]⟩

/-- C4 witness: a fresh session buffer yields the first packet with
sequence number 1, inside the emitted header as well. -/
theorem c4_session_writePacket_seq_witness :
    (sessionWritePacket [] exHeaderSeq0).1 = (exHeaderSeq0.getD 2 0 + 1) % 256 ∧
    (sessionWritePacket [] exHeaderSeq0).1 = 1 :=
  ⟨(c4_session_writePacket_seq [] exHeaderSeq0 (by decide)).1,
   (c4_session_writePacket_seq [] exHeaderSeq0 (by decide)).2.2 (by decide)⟩

/-- C5: `session.readPacket` sequence and parity checks, in order: a
packet whose sequence number is not `seq_sent + 1` yields `SessionNotFound`
when nothing has been sent yet (`seq_sent = 0`) and `InvalidSeqNo`
otherwise; a packet that passes the sequence check but whose parity equals
the own parity of the connection yields `InvalidSeqNo`; only when both checks
pass is the packet deobfuscated and returned. -/
theorem c5_session_readPacket_checks (seqSent parity : Nat) (key p : List Nat) :
    (p.getD 2 0 ≠ (seqSent + 1) % 256 → seqSent = 0 →
      sessionReadPacket seqSent parity key p = .error .sessionNotFound) ∧
    (p.getD 2 0 ≠ (seqSent + 1) % 256 → seqSent ≠ 0 →
      sessionReadPacket seqSent parity key p = .error .invalidSeqNo) ∧
    (p.getD 2 0 = (seqSent + 1) % 256 → p.getD 2 0 &&& 1 = parity →
      sessionReadPacket seqSent parity key p = .error .invalidSeqNo) ∧
    (p.getD 2 0 = (seqSent + 1) % 256 → p.getD 2 0 &&& 1 ≠ parity →
      sessionReadPacket seqSent parity key p = .ok (crypt p key)) := by
  refine ⟨?_, ?_, ?_, ?_⟩ <;> intro h1 h2 <;> unfold sessionReadPacket
  · rw [if_pos h1, if_pos h2]
  · rw [if_pos h1, if_neg h2]
  · rw [if_neg (fun hc => hc h1), if_pos h2]
  · rw [if_neg (fun hc => hc h1), if_neg h2]

/-- C5 witness: the four outcomes on concrete headers (fresh session with
stale packet; established session with bad sequence; correct sequence but
own parity; accepted packet). -/
theorem c5_session_readPacket_checks_witness :
    sessionReadPacket 0 1 [] exHeaderSeq5 = .error .sessionNotFound ∧
    sessionReadPacket 1 1 [] exHeaderSeq5 = .error .invalidSeqNo ∧
    sessionReadPacket 2 1 [] exHeaderSeq3 = .error .invalidSeqNo ∧
    sessionReadPacket 1 1 [] exHeaderSeq2 = .ok (crypt exHeaderSeq2 []) :=
  ⟨(c5_session_readPacket_checks 0 1 [] exHeaderSeq5).1 (by decide) (by decide),
   (c5_session_readPacket_checks 1 1 [] exHeaderSeq5).2.1 (by decide) (by decide),
   (c5_session_readPacket_checks 2 1 [] exHeaderSeq3).2.2.1 (by decide) (by decide),
   (c5_session_readPacket_checks 1 1 [] exHeaderSeq2).2.2.2 (by decide) (by decide)⟩

/-- C6: a client authentication `Continue` with last-sent sequence number
at least 0xfe does not send the continue: it sends a single abort packet
with an empty reason, closes the session, and returns the error "session
aborted, too many packets"; below 0xfe the continue is sent normally. -/
theorem c6_client_continue_guard (seqSent : Nat) (msg : List Nat) :
    (0xfe ≤ seqSent →
      clientContinue seqSent msg =
        { sent := [{ Abort := true, UserMsg := [], Data := [] }], closed := true,
          err := some "session aborted, too many packets" }) ∧
    (seqSent < 0xfe →
      clientContinue seqSent msg =
        { sent := [{ Abort := false, UserMsg := msg, Data := [] }],
          closed := false, err := none }) := by
  constructor
  · intro hs
    unfold clientContinue
    rw [if_pos hs]
    rfl
  · intro hs
    unfold clientContinue
    rw [if_neg (by omega)]

/-- C6 witness: the guard at sequence number 0xfe and the normal path at a
small sequence number. -/
theorem c6_client_continue_guard_witness :
    clientContinue 254 [104, 105] =
      { sent := [{ Abort := true, UserMsg := [], Data := [] }], closed := true,
        err := some "session aborted, too many packets" } ∧
    clientContinue 3 [104, 105] =
      { sent := [{ Abort := false, UserMsg := [104, 105], Data := [] }],
        closed := false, err := none } :=
  ⟨(c6_client_continue_guard 254 [104, 105]).1 (by decide),
   (c6_client_continue_guard 3 [104, 105]).2 (by decide)⟩

/-- C7: an AuthenReply is terminal exactly when its status is below
GetData (3) or above GetPass (5); equivalently the non-terminal statuses
are exactly 3, 4 and 5. -/
theorem c7_authenReply_last (a : AuthenReply) :
    (a.last = true ↔
      (a.Status < AuthenStatusGetData ∨ a.Status > AuthenStatusGetPass)) ∧
    (a.last = false ↔ (a.Status = 3 ∨ a.Status = 4 ∨ a.Status = 5)) := by
  refine ⟨?_, ?_⟩ <;>
    simp [AuthenReply.last, AuthenStatusGetData, AuthenStatusGetPass] <;>
    omega

/-- C8: the marshalled AcctReply body is, in order, the server-message
length (big-endian u16), the data length (big-endian u16), the status
byte, the server message, then the data — and unmarshalling that body
reads the fields back in the same order, restoring the value. -/
theorem c8_acctReply_layout (a : AcctReply) (b : List Nat)
    (h : a.marshal = some b) :
    b = [(a.ServerMsg.length >>> 8) % 256, a.ServerMsg.length % 256,
         (a.Data.length >>> 8) % 256, a.Data.length % 256, a.Status]
        ++ a.ServerMsg ++ a.Data ∧
    AcctReply.unmarshal b = .ok a := by
  refine ⟨?_, acctReply_roundtrip a b h⟩
  unfold AcctReply.marshal at h
  split_ifs at h <;> simp at h
  rw [← h]
  simp [appendUint16, List.append_assoc]

/-- C8 witness: the layout and reread of a concrete AcctReply. -/
theorem c8_acctReply_layout_witness :
    (exAcctReply.marshal).getD [] =
      [(exAcctReply.ServerMsg.length >>> 8) % 256, exAcctReply.ServerMsg.length % 256,
       (exAcctReply.Data.length >>> 8) % 256, exAcctReply.Data.length % 256,
       exAcctReply.Status] ++ exAcctReply.ServerMsg ++ exAcctReply.Data ∧
    AcctReply.unmarshal ((exAcctReply.marshal).getD []) = .ok exAcctReply :=
  c8_acctReply_layout exAcctReply ((exAcctReply.marshal).getD []) (by rfl)

/-- C9: every packet decoder is total over arbitrary input bytes — it
either succeeds or returns the bad-packet error.  In this model any
unchecked slice or index would surface as the distinct out-of-bounds
error, so this also certifies that every length field is validated against
the remaining buffer before it is used to slice. -/
theorem c9_unmarshal_total :
    (∀ buf : List Nat, (∃ v, AuthenStart.unmarshal buf = .ok v) ∨
      AuthenStart.unmarshal buf = .error .bad) ∧
    (∀ buf : List Nat, (∃ v, AuthenReply.unmarshal buf = .ok v) ∨
      AuthenReply.unmarshal buf = .error .bad) ∧
    (∀ buf : List Nat, (∃ v, authenContinue.unmarshal buf = .ok v) ∨
      authenContinue.unmarshal buf = .error .bad) ∧
    (∀ buf : List Nat, (∃ v, AuthenContinue.unmarshal buf = .ok v) ∨
      AuthenContinue.unmarshal buf = .error .bad) ∧
    (∀ buf : List Nat, (∃ v, AuthorRequest.unmarshal buf = .ok v) ∨
      AuthorRequest.unmarshal buf = .error .bad) ∧
    (∀ buf : List Nat, (∃ v, AuthorResponse.unmarshal buf = .ok v) ∨
      AuthorResponse.unmarshal buf = .error .bad) ∧
    (∀ buf : List Nat, (∃ v, AcctRequest.unmarshal buf = .ok v) ∨
      AcctRequest.unmarshal buf = .error .bad) ∧
    (∀ buf : List Nat, (∃ v, AcctReply.unmarshal buf = .ok v) ∨
      AcctReply.unmarshal buf = .error .bad) ∧
    (∀ buf : List Nat, (∃ v, nullPacket.unmarshal buf = .ok v) ∨
      nullPacket.unmarshal buf = .error .bad) :=
  ⟨total_of_err _ authenStart_unmarshal_err,
   total_of_err _ authenReply_unmarshal_err,
   total_of_err _ authenContinue_unmarshal_err,
   total_of_err _ authenContinue2_unmarshal_err,
   total_of_err _ authorRequest_unmarshal_err,
   total_of_err _ authorResponse_unmarshal_err,
   total_of_err _ acctRequest_unmarshal_err,
   total_of_err _ acctReply_unmarshal_err,
   fun _ => Or.inl ⟨{}, rfl⟩⟩

/-- C10: `crypt` modifies only the body — the packet keeps its length and
all 12 header bytes (version, type, seq_no, flags, session id, body
length) are unchanged, even though four header fields seed the
keystream. -/
theorem c10_crypt_header_frame (p key : List Nat) (h : hdrLen ≤ p.length) :
    (crypt p key).length = p.length ∧
    ∀ i, i < hdrLen → (crypt p key)[i]? = p[i]? :=
  ⟨crypt_length p key h, crypt_getElem_header p key h⟩

/-- C10 witness: length preservation and the sequence-number byte on a
concrete packet. -/
theorem c10_crypt_header_frame_witness :
    (crypt exPacket exKey).length = exPacket.length ∧
    (crypt exPacket exKey)[2]? = exPacket[2]? :=
  ⟨(c10_crypt_header_frame exPacket exKey (by decide)).1,
   (c10_crypt_header_frame exPacket exKey (by decide)).2 2 (by decide)⟩

end Tacplus

